import Mathlib

/-!
Verification development for the FCC broadband join pipeline
(`src/hf_dataset/join_fcc.py`).

The pipeline reads technology-specific FCC location files in chunks,
filters rows to NYC county codes (first 5 characters of `block_geoid`),
resolves each surviving row to a ZCTA via a tract crosswalk (first 11
characters of `block_geoid`), aggregates per-ZCTA metrics, and left-joins
the aggregate onto the existing base dataset, replacing all `fcc_`-prefixed
columns.

The embedding below models pandas DataFrames as Lean lists: a raw CSV row
becomes `RawRow` (nullable columns are `Option`), a filtered/resolved row
becomes `ResolvedRow`, and the generic tables handled by the merge stage
become `Table` (ordered association-list rows).  Nullable `Int32` speed
columns become `Option Int`.
-/

set_option maxHeartbeats 1000000

/-- A cell of a generic table (a pandas DataFrame entry): string, integer,
boolean, or missing (`NaN`/`NA`). -/
inductive Cell where
  | str (s : String)
  | int (n : Int)
  | bool (b : Bool)
  | null
  deriving DecidableEq, Repr

/-- One row of an FCC broadband CSV, restricted to the five columns read by
`process_fcc_file` (`usecols`).  `block_geoid` is read with dtype `str` but a
missing value stays `NaN`, hence `Option String`; the two speed columns are
nullable `Int32`, hence `Option Int`. -/
structure RawRow where
  brand_name : String
  location_id : String
  max_advertised_download_speed : Option Int
  max_advertised_upload_speed : Option Int
  block_geoid : Option String
  deriving DecidableEq, Repr

/-- One row of the DataFrame returned by `process_fcc_file`: the selected
columns `["zipcode", "brand_name", "location_id",
"max_advertised_download_speed", "max_advertised_upload_speed", "tech"]`. -/
structure ResolvedRow where
  zipcode : String
  brand_name : String
  location_id : String
  max_advertised_download_speed : Option Int
  max_advertised_upload_speed : Option Int
  tech : String
  deriving DecidableEq, Repr

/-- `NYC_COUNTY_PREFIXES`: the fixed NYC county FIPS codes (first 5 chars of
the 15-digit `block_geoid`). -/
def NYC_COUNTY_PREFIXES : List String := ["36005", "36047", "36061", "36081", "36085"]

/-- `CHUNK_SIZE = 200_000`: the fixed row-count window used by `pd.read_csv`. -/
def CHUNK_SIZE : Nat := 200000

/-- The county filter applied to each chunk:
`chunk["county_prefix"] = chunk["block_geoid"].str[:5]` followed by
`.isin(NYC_COUNTY_PREFIXES)`.  A missing `block_geoid` yields a missing
slice, and `isin` is `False` on a missing value. -/
def inNYC (r : RawRow) : Bool :=
  match r.block_geoid with
  | none => false
  | some g => NYC_COUNTY_PREFIXES.contains (g.take 5)

/-- ZIP resolution for one row: `nyc["tract"] = nyc["block_geoid"].str[:11]`
then `nyc["zipcode"] = nyc["tract"].map(tract_map)`.  The crosswalk dict is
modelled as an association list. -/
def mapZip (tract_map : List (String × String)) (r : RawRow) : Option String :=
  r.block_geoid.bind (fun g => tract_map.lookup (g.take 11))

/-- The per-chunk body of `process_fcc_file`: county filter, ZIP resolution,
`dropna(subset=["zipcode"])`, technology tag, column selection. -/
def processChunk (tract_map : List (String × String)) (tech_label : String)
    (chunk : List RawRow) : List ResolvedRow :=
  (chunk.filter inNYC).filterMap (fun r =>
    (mapZip tract_map r).map (fun z =>
      { zipcode := z
        brand_name := r.brand_name
        location_id := r.location_id
        max_advertised_download_speed := r.max_advertised_download_speed
        max_advertised_upload_speed := r.max_advertised_upload_speed
        tech := tech_label }))

/-- Structural worker for `chunksOf`: `fuel` bounds the number of chunks and
is instantiated with the list's length, which always suffices for a positive
chunk size. -/
def chunksOfAux {α : Type} (n : Nat) : Nat → List α → List (List α)
  | _, [] => []
  | 0, _ :: _ => []
  | fuel + 1, x :: xs =>
    if n = 0 then []
    else (x :: xs).take n :: chunksOfAux n fuel ((x :: xs).drop n)

/-- Split a list into consecutive chunks of at most `n` elements, as the
`chunksize=` option of `pd.read_csv` does with a CSV's rows. -/
def chunksOf {α : Type} (n : Nat) (l : List α) : List (List α) :=
  chunksOfAux n l.length l

/-- `process_fcc_file`: read the file in chunks, process each chunk, and
concatenate the surviving rows (`pd.concat(chunks)`; the source's
`if nyc.empty: continue` only skips appending empty pieces, which does not
change the concatenation, and an empty `chunks` list concatenates to the
empty DataFrame). -/
def process_fcc_file (tract_map : List (String × String)) (tech_label : String)
    (chunk_size : Nat) (rows : List RawRow) : List ResolvedRow :=
  ((chunksOf chunk_size rows).map (processChunk tract_map tech_label)).flatten

/-- One row of the DataFrame produced by `aggregate_by_zcta`, in the source's
column order (`zipcode` group key, the four named aggregations, then the three
availability booleans added in the loop order cable, fiber, copper). -/
structure AggRow where
  zipcode : String
  fcc_isp_count : Nat
  fcc_max_dl_mbps : Option Int
  fcc_max_ul_mbps : Option Int
  fcc_location_count : Nat
  fcc_cable_available : Bool
  fcc_fiber_available : Bool
  fcc_copper_available : Bool
  deriving DecidableEq, Repr

/-- Pandas `max` aggregation over a nullable integer column: the maximum of
the non-null values, `NA` when there are none (`filterMap` has already
removed the nulls when this is applied). -/
def maxOfCol : List Int → Option Int
  | [] => none
  | x :: xs => some (xs.foldl max x)

/-- Pandas `nunique` aggregation: the number of distinct values. -/
def nuniqueOf (l : List String) : Nat := l.dedup.length

/-- The rows of one `groupby("zipcode")` group. -/
def rowsForZip (df : List ResolvedRow) (z : String) : List ResolvedRow :=
  df.filter (fun r => r.zipcode == z)

/-- `zips_with_tech = df[df["tech"] == tech]["zipcode"].unique()`. -/
def zipsWithTech (df : List ResolvedRow) (tech : String) : List String :=
  ((df.filter (fun r => r.tech == tech)).map (fun r => r.zipcode)).dedup

/-- The aggregate record of one ZCTA: the four named `groupby` aggregations
plus `agg[col] = agg["zipcode"].isin(zips_with_tech)` for each technology. -/
def aggRowFor (df : List ResolvedRow) (z : String) : AggRow :=
  { zipcode := z
    fcc_isp_count := nuniqueOf ((rowsForZip df z).map (fun r => r.brand_name))
    fcc_max_dl_mbps :=
      maxOfCol ((rowsForZip df z).filterMap (fun r => r.max_advertised_download_speed))
    fcc_max_ul_mbps :=
      maxOfCol ((rowsForZip df z).filterMap (fun r => r.max_advertised_upload_speed))
    fcc_location_count := nuniqueOf ((rowsForZip df z).map (fun r => r.location_id))
    fcc_cable_available := (zipsWithTech df "cable").contains z
    fcc_fiber_available := (zipsWithTech df "fiber").contains z
    fcc_copper_available := (zipsWithTech df "copper").contains z }

/-- `aggregate_by_zcta`: one aggregate row per distinct `zipcode` in the
input; `groupby` sorts the group keys ascending. -/
def aggregate_by_zcta (df : List ResolvedRow) : List AggRow :=
  (((df.map (fun r => r.zipcode)).dedup).insertionSort (· ≤ ·)).map (aggRowFor df)

/-- Spec example crosswalk: `{"36061000100": "10001"}`. -/
def sampleMap : List (String × String) := [("36061000100", "10001")]

/-- Spec example cable row `{brand:"A", loc:"L1", dl:500, ul:50,
block:"360610001001001"}`. -/
def sampleRaw1 : RawRow :=
  { brand_name := "A"
    location_id := "L1"
    max_advertised_download_speed := some 500
    max_advertised_upload_speed := some 50
    block_geoid := some "360610001001001" }

/-- Spec example cable row `{brand:"B", loc:"L2", dl:null, ul:null,
block:"360610001001002"}`. -/
def sampleRaw2 : RawRow :=
  { brand_name := "B"
    location_id := "L2"
    max_advertised_download_speed := none
    max_advertised_upload_speed := none
    block_geoid := some "360610001001002" }

/-- Spec example cable row in the wrong county,
`{brand:"A", loc:"L3", dl:300, ul:30, block:"999990001001001"}`. -/
def sampleRaw3 : RawRow :=
  { brand_name := "A"
    location_id := "L3"
    max_advertised_download_speed := some 300
    max_advertised_upload_speed := some 30
    block_geoid := some "999990001001001" }

/-- The resolved form of `sampleRaw1`. -/
def sampleRes1 : ResolvedRow :=
  { zipcode := "10001"
    brand_name := "A"
    location_id := "L1"
    max_advertised_download_speed := some 500
    max_advertised_upload_speed := some 50
    tech := "cable" }

/-- The resolved form of `sampleRaw2`. -/
def sampleRes2 : ResolvedRow :=
  { zipcode := "10001"
    brand_name := "B"
    location_id := "L2"
    max_advertised_download_speed := none
    max_advertised_upload_speed := none
    tech := "cable" }

/-- One generic table row: cells keyed by column name, kept in column
order (the model of one row of a pandas DataFrame). -/
abbrev TableRow := List (String × Cell)

/-- A generic table: the column order plus the rows (the model of a pandas
DataFrame as handled by the merge stage). -/
structure Table where
  cols : List String
  rows : List TableRow
  deriving DecidableEq, Repr

/-- Look a cell up by column name in one row (first occurrence). -/
def rowLookup (r : TableRow) (c : String) : Option Cell :=
  (r.find? (fun kv => kv.1 == c)).map (fun kv => kv.2)

/-- Python `str.zfill(5)` on the character list of a string: left-pad with
`'0'` to width 5, keeping a leading sign in front of the padding; strings of
length at least 5 are unchanged. -/
def zfill5 (s : String) : String :=
  if 5 ≤ s.length then s
  else
    match s.data with
    | [] => String.mk (List.replicate 5 '0')
    | c :: cs =>
      if c = '-' ∨ c = '+' then
        String.mk (c :: (List.replicate (5 - s.length) '0' ++ cs))
      else
        String.mk (List.replicate (5 - s.length) '0' ++ (c :: cs))

/-- The pandas `.str.zfill(5)` accessor on one cell: acts on strings, and
yields a missing value on any non-string entry (including `NaN`). -/
def zfillCell : Cell → Cell
  | Cell.str s => Cell.str (zfill5 s)
  | _ => Cell.null

/-- `base["zipcode"] = base["zipcode"].str.zfill(5)` applied to one row. -/
def zfillZipRow (r : TableRow) : TableRow :=
  r.map (fun kv => if kv.1 = "zipcode" then (kv.1, zfillCell kv.2) else kv)

/-- ZIP normalisation of the whole base table. -/
def zfillTable (t : Table) : Table :=
  { cols := t.cols, rows := t.rows.map zfillZipRow }

/-- Python `c.startswith("fcc_")`, modelled as the first four characters
equalling `"fcc_"` (stated on the character lists, which reduce cheaply,
unlike `String.startsWith`). -/
def isFccCol (c : String) : Bool := c.data.take 4 == "fcc_".data

/-- Removal of the `fcc_`-prefixed cells from one row. -/
def dropFccRow (r : TableRow) : TableRow := r.filter (fun kv => !(isFccCol kv.1))

/-- `drop_cols = [c for c in base.columns if c.startswith("fcc_")]` followed
by `base.drop(columns=drop_cols)`. -/
def dropFccCols (t : Table) : Table :=
  { cols := t.cols.filter (fun c => !(isFccCol c))
    rows := t.rows.map dropFccRow }

/-- The aggregate rows matching one base row's ZIP key. -/
def aggMatches (agg : Table) (b : TableRow) : List TableRow :=
  agg.rows.filter (fun a => decide (rowLookup a "zipcode" = rowLookup b "zipcode"))

/-- The merged row(s) a single base row contributes under
`base.merge(fcc_agg, on="zipcode", how="left")`: the base cells followed by
the matching aggregate's non-key cells, or by nulls when the ZIP has no
match (the left join keeps every base row). -/
def mergedRowsFor (agg : Table) (b : TableRow) : List TableRow :=
  match aggMatches agg b with
  | [] => [b ++ (agg.cols.filter (fun c => !(c == "zipcode"))).map (fun c => (c, Cell.null))]
  | ms => ms.map (fun a => b ++ a.filter (fun kv => !(kv.1 == "zipcode")))

/-- `merged = base.merge(fcc_agg, on="zipcode", how="left")`: left columns
first, then the aggregate's non-key columns; one output row per base row and
matching aggregate row. -/
def mergeTables (base agg : Table) : Table :=
  { cols := base.cols ++ agg.cols.filter (fun c => !(c == "zipcode"))
    rows := (base.rows.map (mergedRowsFor agg)).flatten }

/-- `insert_after = "census_no_internet_pct"`: the anchor column after which
the `fcc_` block is re-inserted. -/
def insert_after : String := "census_no_internet_pct"

/-- The column reordering of `join_and_save`: split the merged columns into
`fcc_cols` and `other_cols`, then splice the `fcc_` block right after the
anchor, or append it at the end when the anchor is absent. -/
def finalOrder (cols : List String) : List String :=
  let fcc_cols := cols.filter (fun c => isFccCol c)
  let other_cols := cols.filter (fun c => !(isFccCol c))
  if insert_after ∈ other_cols then
    other_cols.take (other_cols.indexOf insert_after + 1) ++ fcc_cols ++
      other_cols.drop (other_cols.indexOf insert_after + 1)
  else
    other_cols ++ fcc_cols

/-- `merged = merged[final_order]`: reindex every row by the given column
order. -/
def selectCols (order : List String) (t : Table) : Table :=
  { cols := order
    rows := t.rows.map (fun r => order.map (fun c => (c, (rowLookup r c).getD Cell.null))) }

/-- `join_and_save` (without the file I/O): normalise the base ZIP key, drop
every `fcc_`-prefixed column, left-merge the aggregate, and reorder the
columns. -/
def join_and_save (base : Table) (fcc_agg : Table) : Table :=
  let b := dropFccCols (zfillTable base)
  let merged := mergeTables b fcc_agg
  selectCols (finalOrder merged.cols) merged

/-- The column order of the DataFrame built by `aggregate_by_zcta`. -/
def AGG_COLS : List String :=
  ["zipcode", "fcc_isp_count", "fcc_max_dl_mbps", "fcc_max_ul_mbps",
   "fcc_location_count", "fcc_cable_available", "fcc_fiber_available",
   "fcc_copper_available"]

/-- A nullable integer as a table cell. -/
def cellOfOptInt : Option Int → Cell
  | none => Cell.null
  | some n => Cell.int n

/-- One aggregate record as a generic table row, in `AGG_COLS` order. -/
def aggRowToRow (a : AggRow) : TableRow :=
  [("zipcode", Cell.str a.zipcode),
   ("fcc_isp_count", Cell.int a.fcc_isp_count),
   ("fcc_max_dl_mbps", cellOfOptInt a.fcc_max_dl_mbps),
   ("fcc_max_ul_mbps", cellOfOptInt a.fcc_max_ul_mbps),
   ("fcc_location_count", Cell.int a.fcc_location_count),
   ("fcc_cable_available", Cell.bool a.fcc_cable_available),
   ("fcc_fiber_available", Cell.bool a.fcc_fiber_available),
   ("fcc_copper_available", Cell.bool a.fcc_copper_available)]

/-- The aggregate DataFrame as a generic table. -/
def aggToTable (l : List AggRow) : Table :=
  { cols := AGG_COLS, rows := l.map aggRowToRow }

/-- `main` (without console I/O): each of the three technology files is
either absent (`none`, a warning and a skip) or a list of raw rows; files
whose processed DataFrame is empty are not collected; if nothing was
collected the run stops and the previous output file `prev` is left as it
is, otherwise the concatenation is aggregated and merged onto `base`. -/
def mainRun (tract_map : List (String × String))
    (cable fiber copper : Option (List RawRow)) (base prev : Table) : Table :=
  let all_dfs : List (List ResolvedRow) :=
    [("cable", cable), ("fiber", fiber), ("copper", copper)].filterMap
      (fun p => p.2.bind (fun rows =>
        let df := process_fcc_file tract_map p.1 CHUNK_SIZE rows
        if df.isEmpty then none else some df))
  if all_dfs.isEmpty then prev
  else join_and_save base (aggToTable (aggregate_by_zcta all_dfs.flatten))

/-- The single aggregate row of the spec's example scenario. -/
def sampleAgg : AggRow :=
  { zipcode := "10001"
    fcc_isp_count := 2
    fcc_max_dl_mbps := some 500
    fcc_max_ul_mbps := some 50
    fcc_location_count := 2
    fcc_cable_available := true
    fcc_fiber_available := false
    fcc_copper_available := false }

/-- A small base dataset table used by the concrete witnesses: two ZIPs, the
anchor column, a stale `fcc_isp_count` placeholder; ZIP `"00451"` has no
aggregate entry. -/
def sampleBase : Table :=
  { cols := ["zipcode", "borough", "census_no_internet_pct", "fcc_isp_count"]
    rows := [[("zipcode", Cell.str "10001"), ("borough", Cell.str "Manhattan"),
              ("census_no_internet_pct", Cell.int 12), ("fcc_isp_count", Cell.null)],
             [("zipcode", Cell.str "451"), ("borough", Cell.str "Bronx"),
              ("census_no_internet_pct", Cell.int 9), ("fcc_isp_count", Cell.null)]] }

/-- The non-key columns contributed by the aggregate DataFrame: `AGG_COLS`
without the `zipcode` join key. -/
def FCC_DATA_COLS : List String :=
  ["fcc_isp_count", "fcc_max_dl_mbps", "fcc_max_ul_mbps", "fcc_location_count",
   "fcc_cable_available", "fcc_fiber_available", "fcc_copper_available"]

/-- The cells a base row receives from the aggregate in the left merge: the
matching aggregate row's non-key cells, or nulls when its ZIP has no match. -/
def aggPart (l : List AggRow) (b : TableRow) : TableRow :=
  match l.find? (fun a => decide (some (Cell.str a.zipcode) = rowLookup b "zipcode")) with
  | some a => (aggRowToRow a).filter (fun kv => !(kv.1 == "zipcode"))
  | none => FCC_DATA_COLS.map (fun c => (c, Cell.null))

example : inNYC sampleRaw1 = true := by decide

example :
    process_fcc_file sampleMap "cable" 2 [sampleRaw1, sampleRaw2, sampleRaw3] =
      [sampleRes1, sampleRes2] := by decide

example :
    aggregate_by_zcta [sampleRes1, sampleRes2] =
      [{ zipcode := "10001"
         fcc_isp_count := 2
         fcc_max_dl_mbps := some 500
         fcc_max_ul_mbps := some 50
         fcc_location_count := 2
         fcc_cable_available := true
         fcc_fiber_available := false
         fcc_copper_available := false }] := by decide

/-! ### Aggregation lemmas -/

theorem mem_aggregate_by_zcta (df : List ResolvedRow) (a : AggRow) :
    a ∈ aggregate_by_zcta df ↔
      (∃ r ∈ df, r.zipcode = a.zipcode) ∧ a = aggRowFor df a.zipcode := by
  unfold aggregate_by_zcta
  rw [List.mem_map]
  constructor
  · rintro ⟨z, hz, rfl⟩
    have hz' : z ∈ (df.map (fun r => r.zipcode)).dedup :=
      ((List.perm_insertionSort _ _).mem_iff).mp hz
    rw [List.mem_dedup] at hz'
    obtain ⟨r, hr, hrz⟩ := List.mem_map.mp hz'
    exact ⟨⟨r, hr, hrz⟩, rfl⟩
  · rintro ⟨⟨r, hr, hrz⟩, ha⟩
    refine ⟨a.zipcode, ?_, ha.symm⟩
    apply ((List.perm_insertionSort _ _).mem_iff).mpr
    rw [List.mem_dedup]
    exact List.mem_map.mpr ⟨r, hr, hrz⟩

theorem zipsWithTech_contains (df : List ResolvedRow) (tech z : String) :
    (zipsWithTech df tech).contains z = true ↔ ∃ r ∈ df, r.zipcode = z ∧ r.tech = tech := by
  have h1 : (zipsWithTech df tech).contains z = true ↔ z ∈ zipsWithTech df tech := by simp
  rw [h1]
  unfold zipsWithTech
  rw [List.mem_dedup, List.mem_map]
  constructor
  · rintro ⟨r, hrf, rfl⟩
    obtain ⟨hr, ht⟩ := List.mem_filter.mp hrf
    exact ⟨r, hr, rfl, by simpa using ht⟩
  · rintro ⟨r, hr, rfl, ht⟩
    exact ⟨r, List.mem_filter.mpr ⟨hr, by simpa using ht⟩, rfl⟩

theorem le_foldl_max (xs : List Int) (x : Int) :
    x ≤ xs.foldl max x ∧ ∀ y ∈ xs, y ≤ xs.foldl max x := by
  induction xs generalizing x with
  | nil => exact ⟨le_rfl, by simp⟩
  | cons y ys ih =>
    rw [List.foldl_cons]
    obtain ⟨h1, h2⟩ := ih (max x y)
    refine ⟨le_trans (le_max_left x y) h1, ?_⟩
    intro v hv
    rcases List.mem_cons.mp hv with rfl | hv
    · exact le_trans (le_max_right x v) h1
    · exact h2 v hv

theorem foldl_max_mem (xs : List Int) (x : Int) :
    xs.foldl max x = x ∨ xs.foldl max x ∈ xs := by
  induction xs generalizing x with
  | nil => exact Or.inl rfl
  | cons y ys ih =>
    rw [List.foldl_cons]
    rcases ih (max x y) with h | h
    · rcases max_choice x y with hm | hm
      · exact Or.inl (h.trans hm)
      · exact Or.inr (List.mem_cons.mpr (Or.inl (h.trans hm)))
    · exact Or.inr (List.mem_cons.mpr (Or.inr h))

theorem maxOfCol_eq_none (l : List Int) : maxOfCol l = none ↔ l = [] := by
  cases l <;> simp [maxOfCol]

theorem maxOfCol_eq_some (l : List Int) (m : Int) :
    maxOfCol l = some m ↔ m ∈ l ∧ ∀ v ∈ l, v ≤ m := by
  constructor
  · intro h
    cases l with
    | nil => simp [maxOfCol] at h
    | cons x xs =>
      unfold maxOfCol at h
      rw [Option.some_inj] at h
      subst h
      obtain ⟨h1, h2⟩ := le_foldl_max xs x
      refine ⟨?_, ?_⟩
      · rcases foldl_max_mem xs x with h | h
        · rw [h]; exact List.mem_cons_self x xs
        · exact List.mem_cons.mpr (Or.inr h)
      · intro v hv
        rcases List.mem_cons.mp hv with rfl | hv
        · exact h1
        · exact h2 v hv
  · rintro ⟨hm, hle⟩
    cases hmax : maxOfCol l with
    | none =>
      rw [maxOfCol_eq_none] at hmax
      subst hmax
      simp at hm
    | some m' =>
      have h' : m' ∈ l ∧ ∀ v ∈ l, v ≤ m' := by
        cases l with
        | nil => simp at hm
        | cons x xs =>
          unfold maxOfCol at hmax
          rw [Option.some_inj] at hmax
          subst hmax
          obtain ⟨h1, h2⟩ := le_foldl_max xs x
          refine ⟨?_, ?_⟩
          · rcases foldl_max_mem xs x with h | h
            · rw [h]; exact List.mem_cons_self x xs
            · exact List.mem_cons.mpr (Or.inr h)
          · intro v hv
            rcases List.mem_cons.mp hv with rfl | hv
            · exact h1
            · exact h2 v hv
      rw [le_antisymm (hle m' h'.1) (h'.2 m hm)]

/-- C1: For every ZIP in the aggregate and each technology tag independently,
the availability boolean is true iff at least one resolved row with that ZIP
and that tag exists in the input, regardless of that row's brand or speed. -/
theorem tech_available_iff (df : List ResolvedRow) (a : AggRow)
    (ha : a ∈ aggregate_by_zcta df) :
    (a.fcc_cable_available = true ↔ ∃ r ∈ df, r.zipcode = a.zipcode ∧ r.tech = "cable") ∧
      (a.fcc_fiber_available = true ↔ ∃ r ∈ df, r.zipcode = a.zipcode ∧ r.tech = "fiber") ∧
      (a.fcc_copper_available = true ↔ ∃ r ∈ df, r.zipcode = a.zipcode ∧ r.tech = "copper") := by
  obtain ⟨-, ha⟩ := (mem_aggregate_by_zcta df a).mp ha
  rw [ha]
  exact ⟨zipsWithTech_contains df "cable" a.zipcode,
    zipsWithTech_contains df "fiber" a.zipcode,
    zipsWithTech_contains df "copper" a.zipcode⟩

/-- Witness for C1: the spec's example aggregate row. -/
theorem tech_available_iff_witness :
    (sampleAgg.fcc_cable_available = true ↔
        ∃ r ∈ [sampleRes1, sampleRes2], r.zipcode = sampleAgg.zipcode ∧ r.tech = "cable") ∧
      (sampleAgg.fcc_fiber_available = true ↔
        ∃ r ∈ [sampleRes1, sampleRes2], r.zipcode = sampleAgg.zipcode ∧ r.tech = "fiber") ∧
      (sampleAgg.fcc_copper_available = true ↔
        ∃ r ∈ [sampleRes1, sampleRes2], r.zipcode = sampleAgg.zipcode ∧ r.tech = "copper") :=
  tech_available_iff [sampleRes1, sampleRes2] sampleAgg (by decide)

/-- C2: For every ZIP in the aggregate, `fcc_max_dl_mbps` (and likewise
`fcc_max_ul_mbps`) is the maximum of the non-null speed values among that
ZIP's rows, and is null — not zero — exactly when no row for that ZIP has a
non-null value. -/
theorem max_speed_correct (df : List ResolvedRow) (a : AggRow)
    (ha : a ∈ aggregate_by_zcta df) :
    (a.fcc_max_dl_mbps = none ↔
        (rowsForZip df a.zipcode).filterMap
          (fun r => r.max_advertised_download_speed) = []) ∧
      (∀ m : Int, a.fcc_max_dl_mbps = some m ↔
        m ∈ (rowsForZip df a.zipcode).filterMap
            (fun r => r.max_advertised_download_speed) ∧
          ∀ v ∈ (rowsForZip df a.zipcode).filterMap
              (fun r => r.max_advertised_download_speed), v ≤ m) ∧
      (a.fcc_max_ul_mbps = none ↔
        (rowsForZip df a.zipcode).filterMap
          (fun r => r.max_advertised_upload_speed) = []) ∧
      (∀ m : Int, a.fcc_max_ul_mbps = some m ↔
        m ∈ (rowsForZip df a.zipcode).filterMap
            (fun r => r.max_advertised_upload_speed) ∧
          ∀ v ∈ (rowsForZip df a.zipcode).filterMap
              (fun r => r.max_advertised_upload_speed), v ≤ m) := by
  obtain ⟨-, ha⟩ := (mem_aggregate_by_zcta df a).mp ha
  rw [ha]
  exact ⟨maxOfCol_eq_none _, fun m => maxOfCol_eq_some _ m,
    maxOfCol_eq_none _, fun m => maxOfCol_eq_some _ m⟩

/-- Witness for C2: the spec's example aggregate row, whose download maximum
is 500 even though one row's speeds are null. -/
theorem max_speed_correct_witness :
    (sampleAgg.fcc_max_dl_mbps = none ↔
        (rowsForZip [sampleRes1, sampleRes2] sampleAgg.zipcode).filterMap
          (fun r => r.max_advertised_download_speed) = []) ∧
      (∀ m : Int, sampleAgg.fcc_max_dl_mbps = some m ↔
        m ∈ (rowsForZip [sampleRes1, sampleRes2] sampleAgg.zipcode).filterMap
            (fun r => r.max_advertised_download_speed) ∧
          ∀ v ∈ (rowsForZip [sampleRes1, sampleRes2] sampleAgg.zipcode).filterMap
              (fun r => r.max_advertised_download_speed), v ≤ m) ∧
      (sampleAgg.fcc_max_ul_mbps = none ↔
        (rowsForZip [sampleRes1, sampleRes2] sampleAgg.zipcode).filterMap
          (fun r => r.max_advertised_upload_speed) = []) ∧
      (∀ m : Int, sampleAgg.fcc_max_ul_mbps = some m ↔
        m ∈ (rowsForZip [sampleRes1, sampleRes2] sampleAgg.zipcode).filterMap
            (fun r => r.max_advertised_upload_speed) ∧
          ∀ v ∈ (rowsForZip [sampleRes1, sampleRes2] sampleAgg.zipcode).filterMap
              (fun r => r.max_advertised_upload_speed), v ≤ m) :=
  max_speed_correct [sampleRes1, sampleRes2] sampleAgg (by decide)

/-- C9: Every aggregate row has at least one technology-availability flag
set, because it arises from at least one resolved row and every resolved row
carries one of the three technology tags. -/
theorem some_tech_available (df : List ResolvedRow) (a : AggRow)
    (htech : ∀ r ∈ df, r.tech = "cable" ∨ r.tech = "fiber" ∨ r.tech = "copper")
    (ha : a ∈ aggregate_by_zcta df) :
    a.fcc_cable_available = true ∨ a.fcc_fiber_available = true ∨
      a.fcc_copper_available = true := by
  obtain ⟨⟨r, hr, hz⟩, ha⟩ := (mem_aggregate_by_zcta df a).mp ha
  rw [ha]
  rcases htech r hr with ht | ht | ht
  · exact Or.inl ((zipsWithTech_contains df "cable" a.zipcode).mpr ⟨r, hr, hz, ht⟩)
  · exact Or.inr (Or.inl ((zipsWithTech_contains df "fiber" a.zipcode).mpr ⟨r, hr, hz, ht⟩))
  · exact Or.inr (Or.inr ((zipsWithTech_contains df "copper" a.zipcode).mpr ⟨r, hr, hz, ht⟩))

/-- Witness for C9: the spec's example aggregate row has its cable flag set. -/
theorem some_tech_available_witness :
    sampleAgg.fcc_cable_available = true ∨ sampleAgg.fcc_fiber_available = true ∨
      sampleAgg.fcc_copper_available = true :=
  some_tech_available [sampleRes1, sampleRes2] sampleAgg (by decide) (by decide)

/-! ### Chunked ingestion -/

theorem chunksOfAux_flatten {α : Type} (n : Nat) (hn : 0 < n) :
    ∀ (fuel : Nat) (l : List α), l.length ≤ fuel → (chunksOfAux n fuel l).flatten = l := by
  intro fuel
  induction fuel with
  | zero =>
    intro l hl
    cases l with
    | nil => rfl
    | cons x xs => simp at hl
  | succ fuel ih =>
    intro l hl
    cases l with
    | nil => rfl
    | cons x xs =>
      rw [chunksOfAux]
      rw [if_neg (Nat.pos_iff_ne_zero.mp hn)]
      rw [List.flatten_cons]
      rw [ih ((x :: xs).drop n) ?_]
      · exact List.take_append_drop n (x :: xs)
      · rw [List.length_drop]
        omega

theorem chunksOf_flatten {α : Type} {n : Nat} (hn : 0 < n) (l : List α) :
    (chunksOf n l).flatten = l :=
  chunksOfAux_flatten n hn l.length l le_rfl

theorem processChunk_append (tract_map : List (String × String)) (tech_label : String)
    (c₁ c₂ : List RawRow) :
    processChunk tract_map tech_label (c₁ ++ c₂) =
      processChunk tract_map tech_label c₁ ++ processChunk tract_map tech_label c₂ := by
  unfold processChunk
  rw [List.filter_append, List.filterMap_append]

theorem flatten_map_processChunk (tract_map : List (String × String)) (tech_label : String)
    (chunks : List (List RawRow)) :
    ((chunks.map (processChunk tract_map tech_label)).flatten) =
      processChunk tract_map tech_label chunks.flatten := by
  induction chunks with
  | nil => rfl
  | cons c cs ih =>
    rw [List.map_cons, List.flatten_cons, List.flatten_cons, processChunk_append, ih]

/-- With a positive chunk size, chunked processing coincides with processing
the whole file as one chunk. -/
theorem process_fcc_file_eq (tract_map : List (String × String)) (tech_label : String)
    {chunk_size : Nat} (h : 0 < chunk_size) (rows : List RawRow) :
    process_fcc_file tract_map tech_label chunk_size rows =
      processChunk tract_map tech_label rows := by
  unfold process_fcc_file
  rw [flatten_map_processChunk, chunksOf_flatten h]

/-- C3: For every input file and every chunk size, processing the file in
bounded-size chunks and then aggregating yields the same per-ZIP aggregate
records as processing it with any other chunk size. -/
theorem chunk_size_irrelevant (tract_map : List (String × String)) (tech_label : String)
    (n m : Nat) (hn : 0 < n) (hm : 0 < m) (rows : List RawRow) :
    aggregate_by_zcta (process_fcc_file tract_map tech_label n rows) =
      aggregate_by_zcta (process_fcc_file tract_map tech_label m rows) := by
  rw [process_fcc_file_eq tract_map tech_label hn, process_fcc_file_eq tract_map tech_label hm]

/-- Witness for C3: chunk sizes 2 and 1000000 on the spec's example file. -/
theorem chunk_size_irrelevant_witness :
    aggregate_by_zcta (process_fcc_file sampleMap "cable" 2 [sampleRaw1, sampleRaw2, sampleRaw3]) =
      aggregate_by_zcta
        (process_fcc_file sampleMap "cable" 1000000 [sampleRaw1, sampleRaw2, sampleRaw3]) :=
  chunk_size_irrelevant sampleMap "cable" 2 1000000 (by decide) (by decide)
    [sampleRaw1, sampleRaw2, sampleRaw3]

/-! ### Filtering and ZIP resolution -/

theorem mem_processChunk (tract_map : List (String × String)) (tech_label : String)
    (rows : List RawRow) (r' : ResolvedRow) :
    r' ∈ processChunk tract_map tech_label rows ↔
      ∃ r ∈ rows, ∃ g, r.block_geoid = some g ∧ g.take 5 ∈ NYC_COUNTY_PREFIXES ∧
        ∃ z, tract_map.lookup (g.take 11) = some z ∧
          r' = { zipcode := z, brand_name := r.brand_name, location_id := r.location_id,
                 max_advertised_download_speed := r.max_advertised_download_speed,
                 max_advertised_upload_speed := r.max_advertised_upload_speed,
                 tech := tech_label } := by
  unfold processChunk
  constructor
  · intro hmem
    obtain ⟨r, hrf, hf⟩ := List.mem_filterMap.mp hmem
    obtain ⟨hrows, hnyc⟩ := List.mem_filter.mp hrf
    obtain ⟨z, hz, hmk⟩ := Option.map_eq_some'.mp hf
    unfold inNYC at hnyc
    unfold mapZip at hz
    cases hb : r.block_geoid with
    | none => rw [hb] at hnyc; simp at hnyc
    | some g =>
      rw [hb] at hnyc hz
      refine ⟨r, hrows, g, hb, ?_, z, ?_, hmk.symm⟩
      · simpa using hnyc
      · simpa using hz
  · rintro ⟨r, hrows, g, hb, hcounty, z, hz, hr'⟩
    apply List.mem_filterMap.mpr
    refine ⟨r, List.mem_filter.mpr ⟨hrows, ?_⟩, ?_⟩
    · unfold inNYC
      rw [hb]
      simpa using hcounty
    · unfold mapZip
      rw [hb, Option.some_bind, hz]
      simp [hr']

/-- C5: The resolved output of processing one source file consists exactly of
the input rows whose block identifier passes the county test on its first 5
characters and whose first 11 characters have a crosswalk entry; every
surviving row carries its resolved ZIP and the technology label, and no row
survives any other way (in particular never with a missing ZIP). -/
theorem process_fcc_file_exact (tract_map : List (String × String)) (tech_label : String)
    {chunk_size : Nat} (h : 0 < chunk_size) (rows : List RawRow) (r' : ResolvedRow) :
    r' ∈ process_fcc_file tract_map tech_label chunk_size rows ↔
      ∃ r ∈ rows, ∃ g, r.block_geoid = some g ∧ g.take 5 ∈ NYC_COUNTY_PREFIXES ∧
        ∃ z, tract_map.lookup (g.take 11) = some z ∧
          r' = { zipcode := z, brand_name := r.brand_name, location_id := r.location_id,
                 max_advertised_download_speed := r.max_advertised_download_speed,
                 max_advertised_upload_speed := r.max_advertised_upload_speed,
                 tech := tech_label } := by
  rw [process_fcc_file_eq tract_map tech_label h]
  exact mem_processChunk tract_map tech_label rows r'

/-- Witness for C5: the spec's example rows at chunk size 2. -/
theorem process_fcc_file_exact_witness :
    sampleRes1 ∈ process_fcc_file sampleMap "cable" 2 [sampleRaw1, sampleRaw3] ↔
      ∃ r ∈ [sampleRaw1, sampleRaw3], ∃ g, r.block_geoid = some g ∧
        g.take 5 ∈ NYC_COUNTY_PREFIXES ∧
        ∃ z, sampleMap.lookup (g.take 11) = some z ∧
          sampleRes1 = { zipcode := z, brand_name := r.brand_name,
                         location_id := r.location_id,
                         max_advertised_download_speed := r.max_advertised_download_speed,
                         max_advertised_upload_speed := r.max_advertised_upload_speed,
                         tech := "cable" } :=
  process_fcc_file_exact sampleMap "cable" (by decide) [sampleRaw1, sampleRaw3] sampleRes1

theorem inNYC_eq_false_of_bad (r : RawRow)
    (h : r.block_geoid = none ∨ ∃ g, r.block_geoid = some g ∧ g.length < 5) :
    inNYC r = false := by
  rcases h with h | ⟨g, hb, hlen⟩
  · unfold inNYC
    rw [h]
  · unfold inNYC
    rw [hb]
    by_contra hc
    rw [Bool.not_eq_false] at hc
    have hmem : g.take 5 ∈ NYC_COUNTY_PREFIXES := by simpa using hc
    have h5 : (g.take 5).length = 5 := by
      simp only [NYC_COUNTY_PREFIXES, List.mem_cons] at hmem
      rcases hmem with h5 | h5 | h5 | h5 | h5 | h5 <;> first
        | (rw [h5]; decide)
        | simp at h5
    have hlt : (g.take 5).length < 5 := by
      have h1 : (g.take 5).length = (g.take 5).data.length := (String.length_data _).symm
      rw [h1, String.data_take, List.length_take]
      have h2 : g.data.length = g.length := String.length_data g
      omega
    omega

theorem processChunk_singleton_notNYC (tract_map : List (String × String))
    (tech_label : String) (r : RawRow) (hr : inNYC r = false) :
    processChunk tract_map tech_label [r] = [] := by
  unfold processChunk
  simp [List.filter_cons, hr]

/-- C10: An input row whose `block_geoid` is missing or shorter than 5
characters is silently excluded by the county filter: it fails `inNYC`, the
resolved output of processing it is empty, and it contributes nothing to the
aggregate. -/
theorem bad_geoid_excluded (r : RawRow)
    (h : r.block_geoid = none ∨ ∃ g, r.block_geoid = some g ∧ g.length < 5) :
    inNYC r = false ∧
      ∀ (tract_map : List (String × String)) (tech_label : String) (chunk_size : Nat),
        process_fcc_file tract_map tech_label chunk_size [r] = [] ∧
          aggregate_by_zcta (process_fcc_file tract_map tech_label chunk_size [r]) = [] := by
  have hfalse : inNYC r = false := inNYC_eq_false_of_bad r h
  refine ⟨hfalse, fun tract_map tech_label chunk_size => ?_⟩
  have hp : process_fcc_file tract_map tech_label chunk_size [r] = [] := by
    unfold process_fcc_file
    rw [flatten_map_processChunk]
    cases chunk_size with
    | zero => rfl
    | succ k =>
      rw [chunksOf_flatten (Nat.succ_pos k)]
      exact processChunk_singleton_notNYC tract_map tech_label r hfalse
  refine ⟨hp, ?_⟩
  rw [hp]
  decide

/-- Witness for C10: a row with a 3-character `block_geoid`. -/
theorem bad_geoid_excluded_witness :
    inNYC { brand_name := "A", location_id := "L9",
            max_advertised_download_speed := some 10,
            max_advertised_upload_speed := some 1,
            block_geoid := some "360" } = false ∧
      ∀ (tract_map : List (String × String)) (tech_label : String) (chunk_size : Nat),
        process_fcc_file tract_map tech_label chunk_size
            [{ brand_name := "A", location_id := "L9",
               max_advertised_download_speed := some 10,
               max_advertised_upload_speed := some 1,
               block_geoid := some "360" }] = [] ∧
          aggregate_by_zcta (process_fcc_file tract_map tech_label chunk_size
            [{ brand_name := "A", location_id := "L9",
               max_advertised_download_speed := some 10,
               max_advertised_upload_speed := some 1,
               block_geoid := some "360" }]) = [] :=
  bad_geoid_excluded _ (Or.inr ⟨"360", rfl, by decide⟩)

/-! ### Main control flow -/

/-- C7: If every technology source file is missing (`none`) or contributes
zero resolved rows, `main` stops before the merge and the previous output
file is untouched; a missing individual source file behaves exactly like a
file that contributes nothing — a skip, not an abort. -/
theorem main_total_failure_and_skip (tract_map : List (String × String))
    (cable fiber copper : Option (List RawRow)) (base prev : Table) :
    ((cable.elim True (fun rows => process_fcc_file tract_map "cable" CHUNK_SIZE rows = []) ∧
      fiber.elim True (fun rows => process_fcc_file tract_map "fiber" CHUNK_SIZE rows = []) ∧
      copper.elim True (fun rows => process_fcc_file tract_map "copper" CHUNK_SIZE rows = [])) →
        mainRun tract_map cable fiber copper base prev = prev) ∧
      mainRun tract_map none fiber copper base prev =
        mainRun tract_map (some []) fiber copper base prev := by
  constructor
  · rintro ⟨h1, h2, h3⟩
    rcases cable with _ | crows <;> rcases fiber with _ | frows <;>
      rcases copper with _ | prows <;>
      simp_all [mainRun, List.filterMap_cons, Option.elim]
  · rfl

/-- Witness for C7: no cable file, no fiber file, an empty copper file. -/
theorem main_total_failure_and_skip_witness :
    mainRun sampleMap none none (some []) sampleBase sampleBase = sampleBase ∧
      mainRun sampleMap none (some []) none sampleBase sampleBase =
        mainRun sampleMap (some []) (some []) none sampleBase sampleBase :=
  ⟨(main_total_failure_and_skip sampleMap none none (some []) sampleBase sampleBase).1
      ⟨trivial, trivial, rfl⟩,
    (main_total_failure_and_skip sampleMap (some []) (some []) none sampleBase
      sampleBase).2⟩

/-! ### Merge stage: column placement -/

theorem not_mem_take_indexOf {α : Type} [DecidableEq α] (l : List α) (a : α) :
    a ∉ l.take (l.indexOf a) := by
  induction l with
  | nil => simp
  | cons b bs ih =>
    by_cases hba : b = a
    · rw [List.indexOf_cons_eq bs hba]
      simp
    · rw [List.indexOf_cons_ne bs hba, List.take_succ_cons]
      intro hmem
      rcases List.mem_cons.mp hmem with h | h
      · exact hba h.symm
      · exact ih h

theorem take_indexOf_concat {α : Type} [DecidableEq α] (l : List α) (a : α) (h : a ∈ l) :
    l.take (l.indexOf a + 1) = l.take (l.indexOf a) ++ [a] := by
  rw [List.take_succ]
  have hlt : l.indexOf a < l.length := List.indexOf_lt_length.mpr h
  rw [List.getElem?_eq_getElem hlt, List.getElem_indexOf hlt]
  rfl

theorem finalOrder_split (other fcc : List String)
    (hother : ∀ c ∈ other, isFccCol c = false) (hfcc : ∀ c ∈ fcc, isFccCol c = true) :
    finalOrder (other ++ fcc) =
      if insert_after ∈ other then
        other.take (other.indexOf insert_after + 1) ++ fcc ++
          other.drop (other.indexOf insert_after + 1)
      else other ++ fcc := by
  have e1 : (other ++ fcc).filter (fun c => isFccCol c) = fcc := by
    rw [List.filter_append]
    rw [List.filter_eq_nil_iff.mpr (by intro a ha; simp [hother a ha])]
    rw [List.filter_eq_self.mpr hfcc]
    rfl
  have e2 : (other ++ fcc).filter (fun c => !(isFccCol c)) = other := by
    rw [List.filter_append]
    rw [List.filter_eq_self.mpr (by intro a ha; simp [hother a ha])]
    rw [List.filter_eq_nil_iff.mpr (by intro a ha; simp [hfcc a ha])]
    rw [List.append_nil]
  unfold finalOrder
  rw [e1, e2]

theorem agg_cols_filter : AGG_COLS.filter (fun c => !(c == "zipcode")) = FCC_DATA_COLS := by
  decide

theorem join_and_save_cols (base agg : Table) :
    (join_and_save base agg).cols =
      finalOrder (base.cols.filter (fun c => !(isFccCol c)) ++
        agg.cols.filter (fun c => !(c == "zipcode"))) := rfl

theorem join_and_save_aggTable_cols (base : Table) (l : List AggRow) :
    (join_and_save base (aggToTable l)).cols =
      finalOrder (base.cols.filter (fun c => !(isFccCol c)) ++ FCC_DATA_COLS) := by
  rw [join_and_save_cols]
  have h : (aggToTable l).cols = AGG_COLS := rfl
  rw [h, agg_cols_filter]

/-- C8: In the merged output, the `fcc_` columns form a contiguous block
immediately after the first occurrence of the anchor column
`census_no_internet_pct`, with all remaining columns keeping their relative
order; when the anchor is absent from the base dataset the block is appended
at the end. -/
theorem fcc_block_position (base : Table) (l : List AggRow) :
    (insert_after ∈ base.cols.filter (fun c => !(isFccCol c)) →
      ∃ pre post,
        (join_and_save base (aggToTable l)).cols = pre ++ FCC_DATA_COLS ++ post ∧
          pre ++ post = base.cols.filter (fun c => !(isFccCol c)) ∧
          pre.getLast? = some insert_after ∧
          insert_after ∉ pre.dropLast) ∧
      (insert_after ∉ base.cols.filter (fun c => !(isFccCol c)) →
        (join_and_save base (aggToTable l)).cols =
          base.cols.filter (fun c => !(isFccCol c)) ++ FCC_DATA_COLS) := by
  have hsplit :
      (join_and_save base (aggToTable l)).cols =
        if insert_after ∈ base.cols.filter (fun c => !(isFccCol c)) then
          (base.cols.filter (fun c => !(isFccCol c))).take
              ((base.cols.filter (fun c => !(isFccCol c))).indexOf insert_after + 1) ++
            FCC_DATA_COLS ++
            (base.cols.filter (fun c => !(isFccCol c))).drop
              ((base.cols.filter (fun c => !(isFccCol c))).indexOf insert_after + 1)
        else base.cols.filter (fun c => !(isFccCol c)) ++ FCC_DATA_COLS := by
    rw [join_and_save_aggTable_cols]
    exact finalOrder_split _ FCC_DATA_COLS
      (by intro c hc; simpa using (List.mem_filter.mp hc).2) (by decide)
  constructor
  · intro h
    rw [hsplit, if_pos h]
    refine ⟨(base.cols.filter (fun c => !(isFccCol c))).take
        ((base.cols.filter (fun c => !(isFccCol c))).indexOf insert_after + 1),
      (base.cols.filter (fun c => !(isFccCol c))).drop
        ((base.cols.filter (fun c => !(isFccCol c))).indexOf insert_after + 1),
      rfl, List.take_append_drop _ _, ?_, ?_⟩
    · rw [take_indexOf_concat _ _ h]
      simp
    · rw [take_indexOf_concat _ _ h]
      simp only [List.dropLast_concat]
      exact not_mem_take_indexOf _ _
  · intro h
    rw [hsplit, if_neg h]

/-- Witness for C8: `sampleBase` contains the anchor column (first branch);
a base table without it (second branch). -/
theorem fcc_block_position_witness :
    (∃ pre post,
      (join_and_save sampleBase (aggToTable [sampleAgg])).cols =
          pre ++ FCC_DATA_COLS ++ post ∧
        pre ++ post = sampleBase.cols.filter (fun c => !(isFccCol c)) ∧
        pre.getLast? = some insert_after ∧
        insert_after ∉ pre.dropLast) ∧
      (join_and_save { cols := ["zipcode"], rows := [] } (aggToTable [sampleAgg])).cols =
        ["zipcode"].filter (fun c => !(isFccCol c)) ++ FCC_DATA_COLS :=
  ⟨(fcc_block_position sampleBase [sampleAgg]).1 (by decide),
    (fcc_block_position { cols := ["zipcode"], rows := [] } [sampleAgg]).2 (by decide)⟩

/-! ### Merge stage: row semantics -/

theorem filter_eq_find_toList {α β : Type} [DecidableEq β] (f : α → β) (y : β) :
    ∀ l : List α, (l.map f).Nodup →
      l.filter (fun a => decide (f a = y)) = (l.find? (fun a => decide (f a = y))).toList := by
  intro l
  induction l with
  | nil => intro _; rfl
  | cons a as ih =>
    intro hnd
    rw [List.map_cons, List.nodup_cons] at hnd
    by_cases hy : f a = y
    · rw [List.filter_cons_of_pos (by simp [hy]), List.find?_cons_of_pos _ (by simp [hy])]
      have hempty : as.filter (fun a => decide (f a = y)) = [] := by
        rw [List.filter_eq_nil_iff]
        intro a' ha'
        simp only [decide_eq_true_eq]
        intro h'
        have hfa : f a = f a' := by rw [hy, h']
        exact hnd.1 (hfa ▸ List.mem_map_of_mem f ha')
      rw [hempty]
      rfl
    · rw [List.filter_cons_of_neg (by simp [hy]), List.find?_cons_of_neg _ (by simp [hy])]
      exact ih hnd.2

theorem rowLookup_aggRowToRow_zip (a : AggRow) :
    rowLookup (aggRowToRow a) "zipcode" = some (Cell.str a.zipcode) := rfl

theorem aggMatches_aggToTable (l : List AggRow) (b : TableRow) :
    aggMatches (aggToTable l) b =
      (l.filter (fun a => decide (some (Cell.str a.zipcode) = rowLookup b "zipcode"))).map
        aggRowToRow := by
  show ((l.map aggRowToRow).filter _) = _
  rw [List.filter_map]
  rfl

theorem nodup_agg_zip_cells (l : List AggRow) (hl : (l.map AggRow.zipcode).Nodup) :
    (l.map (fun a => some (Cell.str a.zipcode))).Nodup := by
  have h : l.map (fun a => some (Cell.str a.zipcode)) =
      (l.map AggRow.zipcode).map (fun z => some (Cell.str z)) := by
    rw [List.map_map]
    rfl
  rw [h]
  exact hl.map (fun z1 z2 hz => by simpa using hz)

theorem mergedRowsFor_aggToTable (l : List AggRow) (b : TableRow)
    (hl : (l.map AggRow.zipcode).Nodup) :
    mergedRowsFor (aggToTable l) b = [b ++ aggPart l b] := by
  have hnd : (l.map (fun a => some (Cell.str a.zipcode))).Nodup := nodup_agg_zip_cells l hl
  unfold mergedRowsFor aggPart
  rw [aggMatches_aggToTable]
  rw [filter_eq_find_toList (fun a => some (Cell.str a.zipcode)) (rowLookup b "zipcode") l hnd]
  cases hf : l.find? (fun a => decide (some (Cell.str a.zipcode) = rowLookup b "zipcode")) with
  | none =>
    show [b ++ ((aggToTable l).cols.filter (fun c => !(c == "zipcode"))).map
        (fun c => (c, Cell.null))] = _
    have hcols : (aggToTable l).cols = AGG_COLS := rfl
    rw [hcols, agg_cols_filter]
  | some a => rfl

theorem mergeTables_aggToTable_rows (b2 : Table) (l : List AggRow)
    (hl : (l.map AggRow.zipcode).Nodup) :
    (mergeTables b2 (aggToTable l)).rows = b2.rows.map (fun b => b ++ aggPart l b) := by
  show (b2.rows.map (mergedRowsFor (aggToTable l))).flatten = _
  induction b2.rows with
  | nil => rfl
  | cons b bs ih =>
    rw [List.map_cons, List.flatten_cons, mergedRowsFor_aggToTable l b hl, List.map_cons,
      List.singleton_append, ih]

theorem join_and_save_aggTable_rows (base : Table) (l : List AggRow)
    (hl : (l.map AggRow.zipcode).Nodup) :
    (join_and_save base (aggToTable l)).rows =
      base.rows.map (fun b =>
        (finalOrder (base.cols.filter (fun c => !(isFccCol c)) ++ FCC_DATA_COLS)).map
          (fun c => (c, (rowLookup (dropFccRow (zfillZipRow b) ++
            aggPart l (dropFccRow (zfillZipRow b))) c).getD Cell.null))) := by
  have hord : (mergeTables (dropFccCols (zfillTable base)) (aggToTable l)).cols =
      base.cols.filter (fun c => !(isFccCol c)) ++ FCC_DATA_COLS := by
    have h1 : (mergeTables (dropFccCols (zfillTable base)) (aggToTable l)).cols =
        base.cols.filter (fun c => !(isFccCol c)) ++
          (aggToTable l).cols.filter (fun c => !(c == "zipcode")) := rfl
    have h2 : (aggToTable l).cols = AGG_COLS := rfl
    rw [h1, h2, agg_cols_filter]
  show ((mergeTables (dropFccCols (zfillTable base)) (aggToTable l)).rows.map
      (fun r => (finalOrder
          ((mergeTables (dropFccCols (zfillTable base)) (aggToTable l)).cols)).map
        (fun c => (c, (rowLookup r c).getD Cell.null)))) = _
  rw [hord, mergeTables_aggToTable_rows _ l hl]
  have hrows : (dropFccCols (zfillTable base)).rows =
      (base.rows.map zfillZipRow).map dropFccRow := rfl
  rw [hrows, List.map_map, List.map_map, List.map_map]
  rfl

theorem rowLookup_append (r1 r2 : TableRow) (c : String) (h : rowLookup r1 c = none) :
    rowLookup (r1 ++ r2) c = rowLookup r2 c := by
  unfold rowLookup at *
  rw [List.find?_append]
  cases hf : r1.find? (fun kv => kv.1 == c) with
  | none => rw [Option.none_or]
  | some kv => rw [hf] at h; simp at h

theorem rowLookup_dropFccRow_of_fcc (r : TableRow) (c : String) (hfcc : isFccCol c = true) :
    rowLookup (dropFccRow r) c = none := by
  unfold rowLookup dropFccRow
  have hf : (r.filter (fun kv => !(isFccCol kv.1))).find? (fun kv => kv.1 == c) = none := by
    rw [List.find?_eq_none]
    intro kv hkv
    obtain ⟨-, hkv2⟩ := List.mem_filter.mp hkv
    simp only [Bool.not_eq_true'] at hkv2
    simp only [beq_iff_eq]
    intro heq
    rw [heq, hfcc] at hkv2
    exact Bool.true_eq_false.mp hkv2
  rw [hf]
  rfl

theorem rowLookup_nullPad (cols : List String) (c : String) :
    (rowLookup (cols.map (fun c' => (c', Cell.null))) c).getD Cell.null = Cell.null := by
  unfold rowLookup
  cases hf : (cols.map (fun c' => (c', Cell.null))).find? (fun kv => kv.1 == c) with
  | none => rfl
  | some kv =>
    have hm := List.mem_of_find?_eq_some hf
    obtain ⟨c', hc', hkv⟩ := List.mem_map.mp hm
    cases hkv
    rfl

/-- C6: The merge is a left join on ZIP: the output has exactly one row per
base row (no aggregate row introduces a new one), and a base row whose ZIP
matches no aggregate entry gets `null` in every `fcc_` column, without any
failure. -/
theorem left_join_preserves_base (base : Table) (l : List AggRow)
    (hl : (l.map AggRow.zipcode).Nodup) :
    (join_and_save base (aggToTable l)).rows.length = base.rows.length ∧
      ∀ (i : Nat) (h1 : i < (join_and_save base (aggToTable l)).rows.length)
        (h2 : i < base.rows.length),
        (∀ a ∈ l, some (Cell.str a.zipcode) ≠
            rowLookup (dropFccRow (zfillZipRow base.rows[i])) "zipcode") →
          ∀ kv ∈ (join_and_save base (aggToTable l)).rows[i],
            isFccCol kv.1 = true → kv.2 = Cell.null := by
  have hrows := join_and_save_aggTable_rows base l hl
  constructor
  · rw [hrows, List.length_map]
  · intro i h1 h2 habs kv hkv hfcc
    rw [List.getElem_of_eq hrows h1, List.getElem_map _] at hkv
    obtain ⟨c, hc, hkvc⟩ := List.mem_map.mp hkv
    cases hkvc
    simp only at hfcc
    have hfind : l.find? (fun a => decide (some (Cell.str a.zipcode) =
        rowLookup (dropFccRow (zfillZipRow base.rows[i])) "zipcode")) = none := by
      rw [List.find?_eq_none]
      intro a ha
      simp only [decide_eq_true_eq]
      exact habs a ha
    have hap : aggPart l (dropFccRow (zfillZipRow base.rows[i])) =
        FCC_DATA_COLS.map (fun c' => (c', Cell.null)) := by
      unfold aggPart
      rw [hfind]
    show (rowLookup (dropFccRow (zfillZipRow base.rows[i]) ++
        aggPart l (dropFccRow (zfillZipRow base.rows[i]))) c).getD Cell.null = Cell.null
    rw [hap, rowLookup_append _ _ c (rowLookup_dropFccRow_of_fcc _ c hfcc),
      rowLookup_nullPad]

/-- Witness for C6: `sampleBase` (ZIP `"00451"` has no aggregate entry)
against the spec example's aggregate. -/
theorem left_join_preserves_base_witness :
    (join_and_save sampleBase (aggToTable [sampleAgg])).rows.length =
        sampleBase.rows.length ∧
      ∀ (i : Nat) (h1 : i < (join_and_save sampleBase (aggToTable [sampleAgg])).rows.length)
        (h2 : i < sampleBase.rows.length),
        (∀ a ∈ [sampleAgg], some (Cell.str a.zipcode) ≠
            rowLookup (dropFccRow (zfillZipRow sampleBase.rows[i])) "zipcode") →
          ∀ kv ∈ (join_and_save sampleBase (aggToTable [sampleAgg])).rows[i],
            isFccCol kv.1 = true → kv.2 = Cell.null :=
  left_join_preserves_base sampleBase [sampleAgg] (by decide)

/-! ### Merge stage: idempotence -/

theorem zfill5_of_le (s : String) (h : 5 ≤ s.length) : zfill5 s = s := by
  unfold zfill5
  rw [if_pos h]

theorem zfill5_length (s : String) (h : ¬ 5 ≤ s.length) : (zfill5 s).length = 5 := by
  have hlen0 : s.length = s.data.length := (String.length_data s).symm
  unfold zfill5
  rw [if_neg h]
  cases hd : s.data with
  | nil =>
    rw [← String.length_data]
    simp
  | cons c cs =>
    have hcs : s.length = cs.length + 1 := by rw [hlen0, hd]; rfl
    dsimp only
    by_cases hsign : c = '-' ∨ c = '+'
    · rw [if_pos hsign, ← String.length_data]
      show (c :: (List.replicate (5 - s.length) '0' ++ cs)).length = 5
      simp only [List.length_cons, List.length_append, List.length_replicate]
      omega
    · rw [if_neg hsign, ← String.length_data]
      show (List.replicate (5 - s.length) '0' ++ (c :: cs)).length = 5
      simp only [List.length_cons, List.length_append, List.length_replicate]
      omega

theorem zfill5_idem (s : String) : zfill5 (zfill5 s) = zfill5 s := by
  by_cases h : 5 ≤ s.length
  · rw [zfill5_of_le s h]
    exact zfill5_of_le s h
  · exact zfill5_of_le _ (by rw [zfill5_length s h])

theorem zfillCell_idem (c : Cell) : zfillCell (zfillCell c) = zfillCell c := by
  cases c with
  | str s =>
    show Cell.str (zfill5 (zfill5 s)) = Cell.str (zfill5 s)
    rw [zfill5_idem]
  | int n => rfl
  | bool b => rfl
  | null => rfl

theorem keys_zfillZipRow (r : TableRow) : (zfillZipRow r).map Prod.fst = r.map Prod.fst := by
  unfold zfillZipRow
  rw [List.map_map]
  apply List.map_congr_left
  intro kv _
  by_cases h : kv.1 = "zipcode" <;> simp [h]

theorem keys_dropFccRow (r : TableRow) :
    (dropFccRow r).map Prod.fst = (r.map Prod.fst).filter (fun c => !(isFccCol c)) := by
  unfold dropFccRow
  induction r with
  | nil => rfl
  | cons kv r ih =>
    by_cases h : isFccCol kv.1 = true
    · rw [List.filter_cons_of_neg (by simp [h]), List.map_cons,
        List.filter_cons_of_neg (by simp [h])]
      exact ih
    · have hf : isFccCol kv.1 = false := by simpa using h
      rw [List.filter_cons_of_pos (by simp [hf]), List.map_cons, List.map_cons,
        List.filter_cons_of_pos (by simp [hf]), ih]

theorem find?_filter_passes {α : Type} (p q : α → Bool)
    (himp : ∀ a, p a = true → q a = true) :
    ∀ l : List α, (l.filter q).find? p = l.find? p := by
  intro l
  induction l with
  | nil => rfl
  | cons a as ih =>
    by_cases hp : p a = true
    · rw [List.filter_cons_of_pos (himp a hp), List.find?_cons_of_pos _ hp,
        List.find?_cons_of_pos _ hp]
    · by_cases hq : q a = true
      · rw [List.filter_cons_of_pos hq, List.find?_cons_of_neg _ (by simpa using hp),
          List.find?_cons_of_neg _ (by simpa using hp)]
        exact ih
      · rw [List.filter_cons_of_neg (by simpa using hq),
          List.find?_cons_of_neg _ (by simpa using hp)]
        exact ih

theorem rowLookup_dropFccRow_of_nonFcc (r : TableRow) (c : String)
    (h : isFccCol c = false) : rowLookup (dropFccRow r) c = rowLookup r c := by
  unfold rowLookup dropFccRow
  rw [find?_filter_passes (fun kv => kv.1 == c) (fun kv => !(isFccCol kv.1)) ?_ r]
  intro kv hkv
  have h1 : kv.1 = c := by simpa using hkv
  show (!(isFccCol kv.1)) = true
  rw [h1, h]
  rfl

theorem rowLookup_zfillZipRow_zip (b : TableRow) :
    rowLookup (zfillZipRow b) "zipcode" = (rowLookup b "zipcode").map zfillCell := by
  unfold rowLookup zfillZipRow
  induction b with
  | nil => rfl
  | cons kv r ih =>
    rw [List.map_cons]
    by_cases h : kv.1 = "zipcode"
    · rw [if_pos h, List.find?_cons_of_pos _ (by simp [h]),
        List.find?_cons_of_pos _ (by simp [h])]
      rfl
    · rw [if_neg h, List.find?_cons_of_neg _ (by simp [h]),
        List.find?_cons_of_neg _ (by simp [h])]
      exact ih

theorem rowLookup_append_left (r1 r2 : TableRow) (c : String) (v : Cell)
    (h : rowLookup r1 c = some v) : rowLookup (r1 ++ r2) c = some v := by
  unfold rowLookup at *
  rw [List.find?_append]
  cases hf : r1.find? (fun kv => kv.1 == c) with
  | none => rw [hf] at h; simp at h
  | some kv =>
    rw [hf] at h
    exact h

theorem rowLookup_present (r : TableRow) (c : String) (h : c ∈ r.map Prod.fst) :
    ∃ v, rowLookup r c = some v := by
  induction r with
  | nil => simp at h
  | cons kv r ih =>
    by_cases hc : kv.1 = c
    · refine ⟨kv.2, ?_⟩
      unfold rowLookup
      rw [List.find?_cons_of_pos _ (by simp [hc])]
      rfl
    · rw [List.map_cons] at h
      rcases List.mem_cons.mp h with h' | h'
      · exact absurd h'.symm hc
      · obtain ⟨v, hv⟩ := ih h'
        refine ⟨v, ?_⟩
        unfold rowLookup at hv ⊢
        rw [List.find?_cons_of_neg _ (by simp [hc])]
        exact hv

theorem rowLookup_cons_ne (kv : String × Cell) (r : TableRow) (c : String) (h : kv.1 ≠ c) :
    rowLookup (kv :: r) c = rowLookup r c := by
  unfold rowLookup
  rw [List.find?_cons_of_neg _ (by simp [h])]

theorem row_eq_map_lookup (r : TableRow) :
    ∀ cols : List String, r.map Prod.fst = cols → cols.Nodup →
      cols.map (fun c => (c, (rowLookup r c).getD Cell.null)) = r := by
  induction r with
  | nil =>
    intro cols hkeys _
    rw [← hkeys]
    rfl
  | cons kv r ih =>
    intro cols hkeys hnd
    rw [← hkeys] at hnd ⊢
    rw [List.map_cons] at hnd ⊢
    rw [List.nodup_cons] at hnd
    rw [List.map_cons]
    refine List.cons_eq_cons.mpr ⟨?_, ?_⟩
    · show (kv.1, (rowLookup (kv :: r) kv.1).getD Cell.null) = kv
      have hl : rowLookup (kv :: r) kv.1 = some kv.2 := by
        unfold rowLookup
        rw [List.find?_cons_of_pos _ (by simp)]
        rfl
      rw [hl]
      rfl
    · have hcongr : (r.map Prod.fst).map
          (fun c => (c, (rowLookup (kv :: r) c).getD Cell.null)) =
          (r.map Prod.fst).map (fun c => (c, (rowLookup r c).getD Cell.null)) := by
        apply List.map_congr_left
        intro c hc
        have hne : kv.1 ≠ c := fun he => hnd.1 (he ▸ hc)
        rw [rowLookup_cons_ne kv r c hne]
      rw [hcongr]
      exact ih (r.map Prod.fst) rfl hnd.2

theorem zfillZipRow_map_cols (m : List String) (f : String → Cell) :
    zfillZipRow (m.map (fun c => (c, f c))) =
      m.map (fun c => (c, if c = "zipcode" then zfillCell (f c) else f c)) := by
  unfold zfillZipRow
  rw [List.map_map]
  apply List.map_congr_left
  intro c _
  by_cases h : c = "zipcode" <;> simp [h]

theorem dropFccRow_map_cols (m : List String) (g : String → Cell) :
    dropFccRow (m.map (fun c => (c, g c))) =
      (m.filter (fun c => !(isFccCol c))).map (fun c => (c, g c)) := by
  unfold dropFccRow
  induction m with
  | nil => rfl
  | cons c m ih =>
    rw [List.map_cons]
    by_cases h : isFccCol c = true
    · rw [List.filter_cons_of_neg (by simp [h]), List.filter_cons_of_neg (by simp [h])]
      exact ih
    · have hf : isFccCol c = false := by simpa using h
      rw [List.filter_cons_of_pos (by simp [hf]), List.filter_cons_of_pos (by simp [hf]),
        List.map_cons, ih]

theorem finalOrder_filter_nonFcc (other fcc : List String)
    (hother : ∀ c ∈ other, isFccCol c = false) (hfcc : ∀ c ∈ fcc, isFccCol c = true) :
    (finalOrder (other ++ fcc)).filter (fun c => !(isFccCol c)) = other := by
  rw [finalOrder_split other fcc hother hfcc]
  by_cases h : insert_after ∈ other
  · rw [if_pos h, List.filter_append, List.filter_append]
    rw [List.filter_eq_self.mpr (fun c hc => by
      simp [hother c (List.mem_of_mem_take hc)])]
    rw [List.filter_eq_nil_iff.mpr (fun c hc => by simp [hfcc c hc])]
    rw [List.filter_eq_self.mpr (fun c hc => by
      simp [hother c (List.mem_of_mem_drop hc)])]
    rw [List.append_nil]
    exact List.take_append_drop _ _
  · rw [if_neg h, List.filter_append]
    rw [List.filter_eq_self.mpr (fun c hc => by simp [hother c hc])]
    rw [List.filter_eq_nil_iff.mpr (fun c hc => by simp [hfcc c hc])]
    exact List.append_nil _

theorem second_run_row_restores (base : Table) (l : List AggRow)
    (hnd : base.cols.Nodup) (b : TableRow) (hb : b.map Prod.fst = base.cols) :
    dropFccRow (zfillZipRow
      ((finalOrder (base.cols.filter (fun c => !(isFccCol c)) ++ FCC_DATA_COLS)).map
        (fun c => (c, (rowLookup (dropFccRow (zfillZipRow b) ++
          aggPart l (dropFccRow (zfillZipRow b))) c).getD Cell.null)))) =
      dropFccRow (zfillZipRow b) := by
  rw [zfillZipRow_map_cols, dropFccRow_map_cols]
  rw [finalOrder_filter_nonFcc (base.cols.filter (fun c => !(isFccCol c))) FCC_DATA_COLS
    (fun c hc => by simpa using (List.mem_filter.mp hc).2) (by decide)]
  have hkeys : (dropFccRow (zfillZipRow b)).map Prod.fst =
      base.cols.filter (fun c => !(isFccCol c)) := by
    rw [keys_dropFccRow, keys_zfillZipRow, hb]
  have hnd2 : (base.cols.filter (fun c => !(isFccCol c))).Nodup := hnd.filter _
  have hstep : (base.cols.filter (fun c => !(isFccCol c))).map
      (fun c => (c, if c = "zipcode" then
        zfillCell ((rowLookup (dropFccRow (zfillZipRow b) ++
          aggPart l (dropFccRow (zfillZipRow b))) c).getD Cell.null)
        else (rowLookup (dropFccRow (zfillZipRow b) ++
          aggPart l (dropFccRow (zfillZipRow b))) c).getD Cell.null)) =
      (base.cols.filter (fun c => !(isFccCol c))).map
        (fun c => (c, (rowLookup (dropFccRow (zfillZipRow b)) c).getD Cell.null)) := by
    apply List.map_congr_left
    intro c hc
    have hpresent : c ∈ (dropFccRow (zfillZipRow b)).map Prod.fst := by
      rw [hkeys]
      exact hc
    obtain ⟨v, hv⟩ := rowLookup_present _ c hpresent
    rw [rowLookup_append_left _ (aggPart l (dropFccRow (zfillZipRow b))) c v hv, hv]
    by_cases hz : c = "zipcode"
    · rw [if_pos hz]
      have hvz : (rowLookup b "zipcode").map zfillCell = some v := by
        rw [← rowLookup_zfillZipRow_zip b, ← hz]
        rw [← rowLookup_dropFccRow_of_nonFcc (zfillZipRow b) c (by rw [hz]; decide)]
        exact hv
      obtain ⟨v0, hv0, hv0z⟩ := Option.map_eq_some'.mp hvz
      show (c, zfillCell ((some v).getD Cell.null)) = (c, (some v).getD Cell.null)
      have : zfillCell v = v := by
        rw [← hv0z, zfillCell_idem]
      rw [Option.getD_some, this]
    · rw [if_neg hz]
  rw [hstep]
  exact row_eq_map_lookup (dropFccRow (zfillZipRow b))
    (base.cols.filter (fun c => !(isFccCol c))) hkeys hnd2

/-- C4: The merge stage is idempotent: running `join_and_save` a second time
with the same aggregate on the output of the first run yields identical
output — dropping every `fcc_`-prefixed column before merging prevents
column duplication or value drift across repeated runs. -/
theorem join_and_save_idempotent (base : Table) (l : List AggRow)
    (hwf : ∀ r ∈ base.rows, r.map Prod.fst = base.cols)
    (hnd : base.cols.Nodup)
    (hl : (l.map AggRow.zipcode).Nodup) :
    join_and_save (join_and_save base (aggToTable l)) (aggToTable l) =
      join_and_save base (aggToTable l) := by
  have hkey : dropFccCols (zfillTable (join_and_save base (aggToTable l))) =
      dropFccCols (zfillTable base) := by
    have hcols : (dropFccCols (zfillTable (join_and_save base (aggToTable l)))).cols =
        (dropFccCols (zfillTable base)).cols := by
      show (join_and_save base (aggToTable l)).cols.filter (fun c => !(isFccCol c)) =
        base.cols.filter (fun c => !(isFccCol c))
      rw [join_and_save_aggTable_cols]
      exact finalOrder_filter_nonFcc _ FCC_DATA_COLS
        (fun c hc => by simpa using (List.mem_filter.mp hc).2) (by decide)
    have hrows : (dropFccCols (zfillTable (join_and_save base (aggToTable l)))).rows =
        (dropFccCols (zfillTable base)).rows := by
      show ((join_and_save base (aggToTable l)).rows.map zfillZipRow).map dropFccRow =
        (base.rows.map zfillZipRow).map dropFccRow
      rw [join_and_save_aggTable_rows base l hl]
      rw [List.map_map, List.map_map, List.map_map]
      apply List.map_congr_left
      intro b hb
      exact second_run_row_restores base l hnd b (hwf b hb)
    cases h1 : dropFccCols (zfillTable (join_and_save base (aggToTable l))) with
    | mk c1 r1 =>
      cases h2 : dropFccCols (zfillTable base) with
      | mk c2 r2 =>
        rw [h1, h2] at hcols hrows
        simp only at hcols hrows
        rw [hcols, hrows]
  have hexpand : join_and_save (join_and_save base (aggToTable l)) (aggToTable l) =
      selectCols (finalOrder (mergeTables
          (dropFccCols (zfillTable (join_and_save base (aggToTable l))))
          (aggToTable l)).cols)
        (mergeTables (dropFccCols (zfillTable (join_and_save base (aggToTable l))))
          (aggToTable l)) := rfl
  rw [hexpand, hkey]
  rfl

/-- Witness for C4: re-merging the spec example's aggregate onto
`sampleBase`'s first-run output reproduces it exactly. -/
theorem join_and_save_idempotent_witness :
    join_and_save (join_and_save sampleBase (aggToTable [sampleAgg]))
        (aggToTable [sampleAgg]) =
      join_and_save sampleBase (aggToTable [sampleAgg]) :=
  join_and_save_idempotent sampleBase [sampleAgg] (by decide) (by decide) (by decide)
